import Mathlib

/-!
# Data Sweeper — verification of the spec's claims against `src/app.py`

Shallow embedding of the single-file Streamlit application `app.py`.
The app is sequential glue over pandas: parse an uploaded CSV/XLSX file into
a dataframe, project columns, optionally drop duplicate rows and mean-fill
missing numeric values, render summaries/plots, and export to CSV/Excel.

Modelling conventions:
* a dataframe cell is `Val`: a number (idealised as `ℚ`), a string, or
  missing (pandas `NaN`);
* a dataframe (`Table`) is a header list (column name + dtype, mirroring
  pandas' per-column dtype) plus a list of rows, each row a list of cells;
* pandas numeric values are floats; we idealise them as `ℚ` and give the
  CSV serialiser/parser a matching exact numeric format, so "modulo numeric
  formatting" statements are expressed through `numValue`-equivalence;
* Streamlit's rerun model: on every user interaction the whole script
  re-executes top to bottom; `st.button` is `true` only during the rerun
  caused by its click, while checkbox and multiselect state persists.
-/

namespace DataSweeper

/-- A dataframe cell: a numeric value (pandas float, idealised as `ℚ`),
a string, or a missing entry (pandas `NaN`). -/
inductive Val : Type where
  | num (q : ℚ)
  | str (s : String)
  | missing
  deriving DecidableEq, Repr

/-- Column dtype as pandas tracks it: `numeric` columns are what
`select_dtypes(include=["number"])` picks; everything else is `object`. -/
inductive Dtype : Type where
  | numeric
  | object
  deriving DecidableEq, Repr

/-- A column header: name plus inferred dtype. -/
structure Header : Type where
  name : String
  dtype : Dtype
  deriving DecidableEq, Repr

/-- An in-memory dataframe: ordered headers and ordered rows
(each row lists the cells in header order). -/
structure Table : Type where
  headers : List Header
  rows : List (List Val)
  deriving DecidableEq, Repr

namespace Table

/-- The column names, in order. -/
def names (t : Table) : List String := t.headers.map Header.name

/-- Number of columns. -/
def ncols (t : Table) : Nat := t.headers.length

/-- Number of rows. -/
def nrows (t : Table) : Nat := t.rows.length

/-- The cell in row `i`, column `j` (missing when out of range). -/
def cellAt (t : Table) (i j : Nat) : Val := (t.rows.getD i []).getD j Val.missing

/-- The dtype of column `j` (`object` when out of range). -/
def dtypeAt (t : Table) (j : Nat) : Dtype := (t.headers.map Header.dtype).getD j Dtype.object

/-- The cells of column `j`, top to bottom. -/
def colCells (t : Table) (j : Nat) : List Val := t.rows.map (fun r => r.getD j Val.missing)

/-- Rectangularity: every row has exactly one cell per column. -/
def Rect (t : Table) : Prop := ∀ r ∈ t.rows, r.length = t.headers.length

instance : DecidablePred Rect := fun t =>
  decidable_of_iff (∀ r ∈ t.rows, r.length = t.headers.length) Iff.rfl

end Table

/-! ## Column projection (`df = df[selected_columns]`, app.py line 75)

`st.multiselect` offers the parsed table's column names (unique) and the
user picks a sublist; `df[selected]` keeps exactly those columns, in the
given order, with every row's values unchanged. -/

/-- Find the cell of the column named `n` in a row, by walking headers and
row in parallel (first match, as pandas column labels are unique). -/
def lookupCell : List Header → List Val → String → Option Val
  | h :: hs, v :: vs, n => if h.name = n then some v else lookupCell hs vs n
  | _, _, _ => none

/-- `df[selected_columns]`: restrict the table to the selected columns in the
selected order.  (pandas raises `KeyError` for an unknown label; the claims
only concern selections drawn from the table's own columns.) -/
def selectColumns (t : Table) (sel : List String) : Table :=
  { headers := sel.filterMap (fun n => t.headers.find? (fun h => h.name = n)),
    rows := t.rows.map (fun r => sel.filterMap (fun n => lookupCell t.headers r n)) }

/-! ## Remove Duplicates (`df.drop_duplicates(inplace=True)`, app.py line 90)

Default `keep="first"`: a row fully identical to an earlier row is dropped;
the first occurrence stays, order is otherwise preserved. -/

/-- Drop every row equal to one already seen (the accumulator), keeping
first occurrences in order. -/
def dedupRows : List (List Val) → List (List Val) → List (List Val)
  | _, [] => []
  | seen, r :: rs =>
      if r ∈ seen then dedupRows seen rs else r :: dedupRows (r :: seen) rs

/-- `df.drop_duplicates()`: remove exact-duplicate rows, keeping the first
occurrence of each. -/
def dropDuplicates (t : Table) : Table := ⟨t.headers, dedupRows [] t.rows⟩

/-! ## Fill Missing (Mean) (app.py lines 96–97)

`numeric_cols = df.select_dtypes(include=["number"]).columns;`
`df[numeric_cols] = df[numeric_cols].fillna(df[numeric_cols].mean())`.
`mean()` skips `NaN`; for an all-`NaN` column the mean is itself `NaN`
and `fillna` leaves that column untouched. -/

/-- The numeric content of a cell (`NaN`/strings have none). -/
def numOf : Val → Option ℚ
  | .num q => some q
  | _ => none

/-- The present (non-missing) numeric values of column `j`. -/
def presentVals (t : Table) (j : Nat) : List ℚ := (t.colCells j).filterMap numOf

/-- `df[col].mean()`: arithmetic mean of the present values of column `j`,
`none` (pandas `NaN`) when every entry is missing. -/
def meanAt (t : Table) (j : Nat) : Option ℚ :=
  let ps := presentVals t j
  if ps.isEmpty then none else some (ps.sum / ps.length)

/-- `fillna` at one cell of a column: only a missing cell of a numeric-dtype
column with a defined mean is replaced. -/
def fillCell (dt : Dtype) (m : Option ℚ) (c : Val) : Val :=
  match dt, m, c with
  | .numeric, some q, .missing => .num q
  | _, _, c => c

/-- Apply `fillCell` across one row, walking dtypes, column means and cells
in parallel. -/
def fillRow : List Dtype → List (Option ℚ) → List Val → List Val
  | dt :: dts, m :: ms, c :: cs => fillCell dt m c :: fillRow dts ms cs
  | _, _, r => r

/-- The per-column means, in column order. -/
def colMeans (t : Table) : List (Option ℚ) := (List.range t.ncols).map (meanAt t)

/-- The Fill Missing (Mean) operation on the whole table. -/
def fillMissingMean (t : Table) : Table :=
  ⟨t.headers, t.rows.map (fillRow (t.headers.map Header.dtype) (colMeans t))⟩

/-! ## Data exploration (app.py lines 105–135) -/

/-- `df.select_dtypes(include=["number"])`: the numeric-dtype columns. -/
def selectNumeric (t : Table) : Table :=
  selectColumns t ((t.headers.filter (fun h => h.dtype = Dtype.numeric)).map Header.name)

/-- pandas `DataFrame.empty`: true when either axis has length zero. -/
def dfIsEmpty (t : Table) : Bool := t.headers.isEmpty || t.rows.isEmpty

/-- Outcome of one render step of the script: normal output, an explicit
`st.warning`, or an uncaught exception (the Streamlit run crashes). -/
inductive RenderResult : Type where
  | rendered
  | warning
  | exception
  deriving DecidableEq, Repr

/-- "Show Summary Statistics" (lines 105–113): `df.info` accepts any frame,
but `df.describe()` raises `ValueError: Cannot describe a DataFrame without
columns` on a zero-column frame; there is no guard in the code. -/
def showSummaryStatistics (t : Table) : RenderResult :=
  if t.headers.isEmpty then .exception else .rendered

/-- "Show Correlation Heatmap" (lines 116–123): warns when
`df.select_dtypes(include=["number"]).empty`, otherwise plots. -/
def showCorrelationHeatmap (t : Table) : RenderResult :=
  if dfIsEmpty (selectNumeric t) then .warning else .rendered

/-- "Show Histograms" (lines 126–135): warns when
`df.select_dtypes(include=["number"]).empty`, otherwise plots. -/
def showHistograms (t : Table) : RenderResult :=
  if dfIsEmpty (selectNumeric t) then .warning else .rendered

/-! ## Export (app.py lines 142–161) -/

/-- Python `str.lower()` (the names involved are ASCII). -/
def pythonLower (s : String) : String := ⟨s.data.map Char.toLower⟩

/-- `file_name=f"processed_data.{conversion_type.lower()}"` (line 159),
where `conversion_type` is the radio choice, `"CSV"` or `"Excel"`. -/
def downloadFileName (conversionType : String) : String :=
  "processed_data." ++ pythonLower conversionType

/-- The `mime=` argument passed alongside (lines 150 and 153). -/
def downloadMime (conversionType : String) : String :=
  if conversionType = "CSV" then "text/csv"
  else "application/vnd.openxmlformats-officedocument.spreadsheetml.sheet"

/-! ## Ingestion (app.py lines 49–62) -/

/-- `os.path.splitext(name)[-1]`: the suffix from the last dot, provided some
character before that dot is not itself a dot (so ".bashrc" has no
extension); empty otherwise. -/
def splitextExtension (name : String) : String :=
  let rev := name.data.reverse
  let ext := rev.takeWhile (fun c => c ≠ '.')
  match rev.dropWhile (fun c => c ≠ '.') with
  | [] => ""
  | _ :: before =>
      if before.any (fun c => c ≠ '.') then ⟨'.' :: ext.reverse⟩ else ""

/-- `os.path.splitext(uploaded_file.name)[-1].lower()` (line 53). -/
def fileExtensionLower (name : String) : String :=
  pythonLower (splitextExtension name)

/-! ## CSV text: splitting and joining on a separator character

`df.to_csv(index=False)` writes a header line then one line per row,
fields separated by commas; `pd.read_csv` splits them back.  We model the
text as `List Char`. -/

/-- Split a character list at every occurrence of `sep` (the list of parts;
never empty). -/
def splitOnChar (sep : Char) : List Char → List (List Char)
  | [] => [[]]
  | c :: cs =>
      if c = sep then [] :: splitOnChar sep cs
      else
        match splitOnChar sep cs with
        | [] => [[c]]
        | p :: ps => (c :: p) :: ps

/-- Join parts with `sep` between consecutive parts. -/
def joinSep (sep : Char) : List (List Char) → List Char
  | [] => []
  | [p] => p
  | p :: ps => p ++ sep :: joinSep sep ps

/-! ## Numeric literals

pandas stores numbers as floats and formats them decimally; we idealise
numbers as `ℚ` throughout, so the serialised numeric literal is an exact
integer (or `a/b` fraction) and the parser inverts exactly that grammar.
"Modulo numeric formatting" statements go through `numValue` below. -/

/-- The character of one decimal digit (junk digits print as '0'). -/
def digitChar (d : Nat) : Char :=
  match d with
  | 0 => '0'
  | 1 => '1'
  | 2 => '2'
  | 3 => '3'
  | 4 => '4'
  | 5 => '5'
  | 6 => '6'
  | 7 => '7'
  | 8 => '8'
  | 9 => '9'
  | _ => '0'

/-- The numeric value of one decimal digit character. -/
def charDigitVal (c : Char) : Option Nat :=
  if c = '0' then some 0
  else if c = '1' then some 1
  else if c = '2' then some 2
  else if c = '3' then some 3
  else if c = '4' then some 4
  else if c = '5' then some 5
  else if c = '6' then some 6
  else if c = '7' then some 7
  else if c = '8' then some 8
  else if c = '9' then some 9
  else none

/-- Decimal rendering of a natural number (most significant digit first). -/
def natToChars (n : Nat) : List Char :=
  if n = 0 then ['0'] else ((Nat.digits 10 n).map digitChar).reverse

/-- The digit values of a character list, or `none` if any character is not
a decimal digit. -/
def digitsOfChars : List Char → Option (List Nat)
  | [] => some []
  | c :: cs =>
      match charDigitVal c, digitsOfChars cs with
      | some d, some ds => some (d :: ds)
      | _, _ => none

/-- Parse a non-empty all-digit character list as a natural number. -/
def charsToNat (cs : List Char) : Option Nat :=
  match digitsOfChars cs with
  | some [] => none
  | some ds => some (Nat.ofDigits 10 ds.reverse)
  | none => none

/-- Decimal rendering of an integer (a leading '-' when negative). -/
def intToChars (n : Int) : List Char :=
  if n < 0 then '-' :: natToChars n.natAbs else natToChars n.toNat

/-- Parse an optionally '-'-signed decimal integer. -/
def charsToInt (cs : List Char) : Option Int :=
  match cs with
  | [] => none
  | c :: rest =>
      if c = '-' then
        match charsToNat rest with
        | some m => some (-(m : Int))
        | none => none
      else
        match charsToNat (c :: rest) with
        | some m => some ((m : Int))
        | none => none

/-- Rendering of a rational: an integer when the denominator is 1,
otherwise `num/den`. -/
def ratToChars (q : ℚ) : List Char :=
  if q.den = 1 then intToChars q.num else intToChars q.num ++ '/' :: natToChars q.den

/-- Parse a rational literal (integer or `num/den` fraction). -/
def charsToRat (cs : List Char) : Option ℚ :=
  match splitOnChar '/' cs with
  | [a] =>
      match charsToInt a with
      | some n => some ((n : ℚ))
      | none => none
  | [a, b] =>
      match charsToInt a, charsToNat b with
      | some n, some d => if d = 0 then none else some ((n : ℚ) / (d : ℚ))
      | _, _ => none
  | _ => none

/-! ## CSV export and re-import -/

/-- pandas' default NA sentinels for `read_csv` (the full `STR_NA_VALUES`
list; an empty field is always NA). -/
def naTokens : List String :=
  ["", "#N/A", "#N/A N/A", "#NA", "-1.#IND", "-1.#QNAN", "-NaN", "-nan",
   "1.#IND", "1.#QNAN", "<NA>", "N/A", "NA", "NULL", "NaN", "None", "n/a",
   "nan", "null"]

/-- Is a raw field one of the NA sentinels? -/
def isNAField (cs : List Char) : Bool := naTokens.any (fun s => s.data = cs)

/-- Does a raw field parse as a numeric literal? -/
def fieldIsNumeric (cs : List Char) : Bool := (charsToRat cs).isSome

/-- A field compatible with a numeric column: NA or a numeric literal. -/
def fieldNumericOrNA (cs : List Char) : Bool := isNAField cs || fieldIsNumeric cs

/-- `to_csv` rendering of one cell: numbers in the numeric format, strings
verbatim, missing as the empty field. -/
def serializeCell : Val → List Char
  | .num q => ratToChars q
  | .str s => s.data
  | .missing => []

/-- The header line of `df.to_csv(index=False)`. -/
def headerLine (t : Table) : List Char := joinSep ',' (t.names.map String.data)

/-- One record line of `df.to_csv(index=False)`. -/
def recordLine (r : List Val) : List Char := joinSep ',' (r.map serializeCell)

/-- `df.to_csv(index=False)`: header line then one line per row.  (pandas
additionally quotes fields containing separators and appends a final
newline; the round-trip theorem's hypotheses restrict to separator-free
fields, where both renderings parse identically.) -/
def toCsv (t : Table) : List Char :=
  joinSep '\n' (headerLine t :: t.rows.map recordLine)

/-- `read_csv` conversion of one raw field, given whether its column was
inferred numeric: NA sentinels become missing; in a numeric column the
field's numeric value is taken; otherwise the field stays a string. -/
def parseField (numericCol : Bool) (cs : List Char) : Val :=
  if isNAField cs then .missing
  else if numericCol then
    match charsToRat cs with
    | some q => .num q
    | none => .str ⟨cs⟩
  else .str ⟨cs⟩

/-- Build the parsed headers: names are the header fields verbatim, dtype
is numeric exactly when the column's fields were all numeric-or-NA. -/
def mkHeadersFrom (isNum : Nat → Bool) : Nat → List (List Char) → List Header
  | _, [] => []
  | j, f :: fs =>
      ⟨⟨f⟩, if isNum j then Dtype.numeric else Dtype.object⟩ :: mkHeadersFrom isNum (j + 1) fs

/-- Convert one raw record into cells, walking its fields with their column
indices. -/
def parseRowFrom (isNum : Nat → Bool) : Nat → List (List Char) → List Val
  | _, [] => []
  | j, f :: fs => parseField (isNum j) f :: parseRowFrom isNum (j + 1) fs

/-- `pd.read_csv`: split into lines (blank lines skipped, as with
`skip_blank_lines=True`), the first line giving the column names; per
column, the dtype is numeric when every field is numeric-or-NA (pandas
type inference); `none` models `EmptyDataError` when no line remains. -/
def parseCsv (file : List Char) : Option Table :=
  match (splitOnChar '\n' file).filter (fun l => l ≠ []) with
  | [] => none
  | h :: recs =>
      let rawRows := recs.map (splitOnChar ',')
      let colIsNumeric : Nat → Bool := fun j =>
        rawRows.all (fun r => fieldNumericOrNA (r.getD j []))
      some
        { headers := mkHeadersFrom colIsNumeric 0 (splitOnChar ',' h),
          rows := rawRows.map (parseRowFrom colIsNumeric 0) }

/-- The numeric reading of a cell, if any: a number itself, or a string
whose text is a numeric literal. -/
def numValue : Val → Option ℚ
  | .num q => some q
  | .str s => charsToRat s.data
  | .missing => none

/-- Cell equality modulo numeric formatting: equal outright, or both
readable as the same number. -/
def eqModNumFmt (v w : Val) : Prop :=
  v = w ∨ (numValue v ≠ none ∧ numValue v = numValue w)

instance (v w : Val) : Decidable (eqModNumFmt v w) :=
  inferInstanceAs (Decidable (_ ∨ _))

/-- A string cell that CSV round-trips verbatim: not an NA sentinel and
free of the separator characters (pandas would quote those). -/
def StrSafe (c : Val) : Prop :=
  ∀ s, c = Val.str s → isNAField s.data = false ∧ ',' ∉ s.data ∧ '\n' ∉ s.data

instance : DecidablePred StrSafe := fun c =>
  match c with
  | .str s =>
      decidable_of_iff (isNAField s.data = false ∧ ',' ∉ s.data ∧ '\n' ∉ s.data)
        ⟨fun h _ hs => by cases hs; exact h, fun h => h s rfl⟩
  | .num q => isTrue (fun s hs => by cases hs)
  | .missing => isTrue (fun s hs => by cases hs)

/-! ## Ingestion and the Streamlit rerun model (app.py lines 49–99)

The uploaded file's bytes are parsed by `pd.read_csv` for `.csv` and by
`pd.read_excel` (openpyxl) for `.xlsx`; we model an xlsx payload as the
table openpyxl would decode from its bytes.  Streamlit re-executes the
whole script on every user interaction: `st.button` is true only in the
rerun caused by its click, while checkbox and multiselect values persist. -/

/-- The payload of an uploaded file: raw text, or an xlsx workbook (whose
bytes openpyxl decodes to a table). -/
inductive FileContent : Type where
  | text (cs : List Char)
  | workbook (t : Table)
  deriving Repr

/-- An uploaded file: name plus payload. -/
structure UploadedFile : Type where
  name : String
  content : FileContent

/-- `pd.read_csv` on an uploaded payload. -/
def readCsvFile : FileContent → Option Table
  | .text cs => parseCsv cs
  | .workbook _ => none

/-- `pd.read_excel` on an uploaded payload. -/
def readExcelFile : FileContent → Option Table
  | .workbook t => some t
  | .text _ => none

/-- Result of the ingestion branch (lines 53–62): a parsed table, the
`st.error` + `st.stop` path for an unsupported extension, or a parse
failure surfaced by the library. -/
inductive IngestResult : Type where
  | table (t : Table)
  | unsupported (ext : String)
  | parseFailure
  deriving DecidableEq, Repr

/-- Lines 53–62: dispatch on the lowercased filename extension. -/
def ingest (f : UploadedFile) : IngestResult :=
  let ext := fileExtensionLower f.name
  if ext = ".csv" then
    match readCsvFile f.content with
    | some t => .table t
    | none => .parseFailure
  else if ext = ".xlsx" then
    match readExcelFile f.content with
    | some t => .table t
    | none => .parseFailure
  else .unsupported ext

/-- The user interaction that triggered a rerun.  Exactly the button that
was clicked reads as true during that rerun; any other interaction
(checkbox toggle, export click, etc.) leaves both cleaning buttons false. -/
inductive Event : Type where
  | clickRemoveDuplicates
  | clickFillMissing
  | otherInteraction
  deriving DecidableEq, Repr

/-- Outcome of one top-to-bottom script run. -/
inductive RunOutcome : Type where
  | unsupportedError (ext : String)
  | parseError
  | ok (workingTable : Table)
  deriving DecidableEq, Repr

/-- One full top-to-bottom script execution (lines 52–99): re-parse the
uploaded file, apply the projection, then apply whichever cleaning button
read true in this rerun.  The working table is rebuilt from scratch — the
script stores nothing in `st.session_state`. -/
def scriptRun (f : UploadedFile) (selectedColumns : List String)
    (cleaningEnabled : Bool) (ev : Event) : RunOutcome :=
  match ingest f with
  | .unsupported ext => .unsupportedError ext
  | .parseFailure => .parseError
  | .table t0 =>
      let df := selectColumns t0 selectedColumns
      let df :=
        if cleaningEnabled ∧ ev = Event.clickRemoveDuplicates then
          dropDuplicates df
        else df
      let df :=
        if cleaningEnabled ∧ ev = Event.clickFillMissing then
          fillMissingMean df
        else df
      .ok df

/-! ## Derived measures used in the claim statements -/

/-- Number of missing entries in column `j`. -/
def missingCount (t : Table) (j : Nat) : Nat := (t.colCells j).count Val.missing

/-- The column named `n`, as the per-row result of the label lookup
(`none` only when the label is absent or the row too short). -/
def columnByName (t : Table) (n : String) : List (Option Val) :=
  t.rows.map (fun r => lookupCell t.headers r n)

/-! ## Concrete sample data used by witnesses and counterexamples -/

/-- A small two-column table: `a` numeric, `b` textual. -/
def sampleTable : Table :=
  { headers := [⟨"a", Dtype.numeric⟩, ⟨"b", Dtype.object⟩],
    rows := [[Val.num 4, Val.str "x"], [Val.missing, Val.str "y"]] }

/-- A one-column numeric table (used for the zero-column projection
counterexample). -/
def oneColTable : Table :=
  { headers := [⟨"a", Dtype.numeric⟩],
    rows := [[Val.num 1]] }

/-- A numeric table whose second column is entirely missing. -/
def allMissingColTable : Table :=
  { headers := [⟨"a", Dtype.numeric⟩, ⟨"b", Dtype.numeric⟩],
    rows := [[Val.num 1, Val.missing], [Val.num 2, Val.missing]] }

/-- The CSV upload of the session-persistence scenario: a duplicate row
`(5,10)` and one missing `value`. -/
def dupFile : UploadedFile :=
  ⟨"data.csv", FileContent.text ("id,value\n5,10\n2,\n5,10").data⟩

/-- The table the scenario's CSV parses to. -/
def dupParsed : Table :=
  { headers := [⟨"id", Dtype.numeric⟩, ⟨"value", Dtype.numeric⟩],
    rows := [[Val.num 5, Val.num 10],
             [Val.num 2, Val.missing],
             [Val.num 5, Val.num 10]] }

/-- A mixed table used as the CSV round-trip witness. -/
def roundTripSample : Table :=
  { headers := [⟨"a", Dtype.numeric⟩, ⟨"b", Dtype.object⟩],
    rows := [[Val.num 3, Val.str "hi"], [Val.missing, Val.str "there"]] }

/-- A `.txt` upload (used for the unsupported-extension witness). -/
def txtFile : UploadedFile := ⟨"notes.txt", FileContent.text "hello".data⟩

/-! # Lemmas about Remove Duplicates -/

theorem dedupRows_sublist (l seen : List (List Val)) : (dedupRows seen l).Sublist l := by
  induction l generalizing seen with
  | nil => simp [dedupRows]
  | cons r rs ih =>
      by_cases hr : r ∈ seen
      · simpa [dedupRows, hr] using List.Sublist.trans (ih seen) (List.sublist_cons_self r rs)
      · simpa [dedupRows, hr] using List.Sublist.cons₂ r (ih (r :: seen))

theorem not_mem_seen_of_mem_dedupRows (l : List (List Val)) :
    ∀ seen, ∀ x ∈ dedupRows seen l, x ∉ seen := by
  induction l with
  | nil => intro seen x hx; simp [dedupRows] at hx
  | cons r rs ih =>
      intro seen x hx
      by_cases hr : r ∈ seen
      · exact ih seen x (by simpa [dedupRows, hr] using hx)
      · simp only [dedupRows, hr, if_false] at hx
        rcases List.mem_cons.mp hx with rfl | hx
        · exact hr
        · intro hmem
          exact ih (r :: seen) x hx (List.mem_cons_of_mem r hmem)

theorem dedupRows_nodup (l : List (List Val)) : ∀ seen, (dedupRows seen l).Nodup := by
  induction l with
  | nil => intro seen; simp [dedupRows]
  | cons r rs ih =>
      intro seen
      by_cases hr : r ∈ seen
      · simpa [dedupRows, hr] using ih seen
      · simp only [dedupRows, hr, if_false, List.nodup_cons]
        refine ⟨fun hmem => ?_, ih (r :: seen)⟩
        exact not_mem_seen_of_mem_dedupRows rs (r :: seen) r hmem (List.mem_cons_self r seen)

theorem dedupRows_eq_self (l : List (List Val)) :
    ∀ seen, l.Nodup → (∀ x ∈ l, x ∉ seen) → dedupRows seen l = l := by
  induction l with
  | nil => intro seen _ _; rfl
  | cons r rs ih =>
      intro seen hnd hdisj
      have hr : r ∉ seen := hdisj r (List.mem_cons_self r rs)
      simp only [dedupRows, hr, if_false, List.cons.injEq, true_and]
      refine ih (r :: seen) (List.Nodup.of_cons hnd) ?_
      intro x hx hmem
      rcases List.mem_cons.mp hmem with rfl | hmem
      · exact (List.nodup_cons.mp hnd).1 hx
      · exact hdisj x (List.mem_cons_of_mem r hx) hmem

/-- Claim C7 — Remove Duplicates is idempotent: the second application
returns the same table, hence the same row count. -/
theorem dropDuplicates_idempotent (t : Table) :
    dropDuplicates (dropDuplicates t) = dropDuplicates t ∧
    (dropDuplicates (dropDuplicates t)).nrows = (dropDuplicates t).nrows := by
  have h : dedupRows [] (dedupRows [] t.rows) = dedupRows [] t.rows :=
    dedupRows_eq_self _ [] (dedupRows_nodup t.rows []) (by simp)
  constructor
  · simp [dropDuplicates, h]
  · simp [dropDuplicates, Table.nrows, h]

/-! # Export filename (claim C1) -/

/-- Claim C1 — the code as written: the CSV download is named
`processed_data.csv` as the spec says, but the Excel download is named
`processed_data.excel` (the f-string lowercases the radio label "Excel"),
not the `processed_data.xlsx` the spec requires — even though the buffer
holds xlsx bytes (`to_excel` with openpyxl) and the MIME type is the xlsx
one, so the spec is the evident intent and the filename a slip. -/
theorem downloadFileName_excel_bug :
    downloadFileName "CSV" = "processed_data.csv" ∧
    downloadFileName "Excel" = "processed_data.excel" ∧
    downloadFileName "Excel" ≠ "processed_data.xlsx" ∧
    downloadMime "Excel" =
      "application/vnd.openxmlformats-officedocument.spreadsheetml.sheet" := by
  refine ⟨by decide, by decide, by decide, by decide⟩

/-! # Zero-column projection and the exploration steps (claim C3) -/

/-- Claim C3, counterexample — selecting zero columns indeed yields a
zero-column table, but the "Show Summary Statistics" step then crashes
(`df.describe()` raises `ValueError: Cannot describe a DataFrame without
columns`; the code has no guard), so not every downstream step tolerates
the empty selection gracefully. -/
theorem zeroColumns_summary_crashes :
    (selectColumns oneColTable []).ncols = 0 ∧
    showSummaryStatistics (selectColumns oneColTable []) = RenderResult.exception ∧
    RenderResult.exception ≠ RenderResult.warning := by
  refine ⟨by decide, by decide, by decide⟩

/-- Claim C3, amended — selecting zero columns yields a zero-column table
(with all its rows) without error, and the correlation-heatmap and
histogram steps tolerate it with their "no numeric columns" warnings, but
the summary-statistics step raises (describe of a zero-column frame). -/
theorem zeroColumns_downstream (t : Table) :
    (selectColumns t []).ncols = 0 ∧
    (selectColumns t []).nrows = t.nrows ∧
    showCorrelationHeatmap (selectColumns t []) = RenderResult.warning ∧
    showHistograms (selectColumns t []) = RenderResult.warning ∧
    showSummaryStatistics (selectColumns t []) = RenderResult.exception := by
  refine ⟨?_, ?_, ?_, ?_, ?_⟩ <;>
    simp [selectColumns, Table.ncols, Table.nrows, showCorrelationHeatmap,
      showHistograms, showSummaryStatistics, selectNumeric, dfIsEmpty, Table.names]

/-! # Unsupported upload extensions (claim C8) -/

/-- Claim C8 — for any uploaded file whose lowercased extension is neither
`.csv` nor `.xlsx`, ingestion takes the `st.error` + `st.stop` branch: an
UnsupportedFormat error naming the extension, no working table, and the
script run halts for every configuration. -/
theorem ingest_unsupported_halts (f : UploadedFile) (sel : List String)
    (cleaning : Bool) (ev : Event)
    (hcsv : fileExtensionLower f.name ≠ ".csv")
    (hxlsx : fileExtensionLower f.name ≠ ".xlsx") :
    ingest f = IngestResult.unsupported (fileExtensionLower f.name) ∧
    scriptRun f sel cleaning ev = RunOutcome.unsupportedError (fileExtensionLower f.name) := by
  have hing : ingest f = IngestResult.unsupported (fileExtensionLower f.name) := by
    simp [ingest, hcsv, hxlsx]
  exact ⟨hing, by simp [scriptRun, hing]⟩

/-- Witness for claim C8: a `.txt` upload is rejected with its extension
reported, and the run produces no working table. -/
theorem ingest_unsupported_halts_witness :
    ingest txtFile = IngestResult.unsupported ".txt" ∧
    scriptRun txtFile [] false Event.otherInteraction = RunOutcome.unsupportedError ".txt" := by
  have h := ingest_unsupported_halts txtFile [] false Event.otherInteraction
    (by decide) (by decide)
  have e : fileExtensionLower txtFile.name = ".txt" := by decide
  rw [e] at h
  exact h

/-! # Lemmas about Fill Missing (Mean) -/

theorem fillCell_object (m : Option ℚ) (c : Val) : fillCell Dtype.object m c = c := by
  cases m <;> cases c <;> rfl

theorem fillCell_none (dt : Dtype) (c : Val) : fillCell dt none c = c := by
  cases dt <;> cases c <;> rfl

theorem fillCell_of_ne_missing (dt : Dtype) (m : Option ℚ) (c : Val)
    (hc : c ≠ Val.missing) : fillCell dt m c = c := by
  cases dt <;> cases m <;> cases c <;> first | rfl | exact absurd rfl hc

theorem fillRow_length (dts : List Dtype) (ms : List (Option ℚ)) (r : List Val) :
    (fillRow dts ms r).length = r.length := by
  induction dts generalizing ms r with
  | nil => simp [fillRow]
  | cons dt dts ih =>
      cases ms with
      | nil => simp [fillRow]
      | cons m ms =>
          cases r with
          | nil => simp [fillRow]
          | cons c cs => simpa [fillRow] using ih ms cs

theorem fillRow_getD_of_lt (dts : List Dtype) (ms : List (Option ℚ)) (r : List Val)
    (j : Nat) (hdt : j < dts.length) (hm : j < ms.length) (hr : j < r.length) :
    (fillRow dts ms r).getD j Val.missing =
      fillCell (dts.getD j Dtype.object) (ms.getD j none) (r.getD j Val.missing) := by
  induction dts generalizing ms r j with
  | nil => simp at hdt
  | cons dt dts ih =>
      cases ms with
      | nil => simp at hm
      | cons m ms =>
          cases r with
          | nil => simp at hr
          | cons c cs =>
              cases j with
              | zero => simp [fillRow]
              | succ j =>
                  simpa [fillRow] using
                    ih ms cs j (by simpa using hdt) (by simpa using hm) (by simpa using hr)

theorem fillRow_getD_of_not_numeric (dts : List Dtype) (ms : List (Option ℚ))
    (r : List Val) (j : Nat) (hdt : dts.getD j Dtype.object ≠ Dtype.numeric) :
    (fillRow dts ms r).getD j Val.missing = r.getD j Val.missing := by
  induction dts generalizing ms r j with
  | nil => simp [fillRow]
  | cons dt dts ih =>
      cases ms with
      | nil => simp [fillRow]
      | cons m ms =>
          cases r with
          | nil => simp [fillRow]
          | cons c cs =>
              cases j with
              | zero =>
                  have : dt ≠ Dtype.numeric := by simpa using hdt
                  cases dt with
                  | numeric => exact absurd rfl this
                  | object => simp [fillRow, fillCell_object]
              | succ j => simpa [fillRow] using ih ms cs j (by simpa using hdt)

theorem fillRow_getD_of_mean_none (dts : List Dtype) (ms : List (Option ℚ))
    (r : List Val) (j : Nat) (hm : ms.getD j none = none) :
    (fillRow dts ms r).getD j Val.missing = r.getD j Val.missing := by
  induction dts generalizing ms r j with
  | nil => simp [fillRow]
  | cons dt dts ih =>
      cases ms with
      | nil => simp [fillRow]
      | cons m ms =>
          cases r with
          | nil => simp [fillRow]
          | cons c cs =>
              cases j with
              | zero =>
                  have : m = none := by simpa using hm
                  subst this
                  simp [fillRow, fillCell_none]
              | succ j => simpa [fillRow] using ih ms cs j (by simpa using hm)

theorem fillRow_getD_of_ne_missing (dts : List Dtype) (ms : List (Option ℚ))
    (r : List Val) (j : Nat) (hc : r.getD j Val.missing ≠ Val.missing) :
    (fillRow dts ms r).getD j Val.missing = r.getD j Val.missing := by
  induction dts generalizing ms r j with
  | nil => simp [fillRow]
  | cons dt dts ih =>
      cases ms with
      | nil => simp [fillRow]
      | cons m ms =>
          cases r with
          | nil => simp [fillRow]
          | cons c cs =>
              cases j with
              | zero =>
                  have : c ≠ Val.missing := by simpa using hc
                  simp [fillRow, fillCell_of_ne_missing dt m c this]
              | succ j => simpa [fillRow] using ih ms cs j (by simpa using hc)

theorem colMeans_getD (t : Table) (j : Nat) (hj : j < t.ncols) :
    (colMeans t).getD j none = meanAt t j := by
  have hlen : j < (colMeans t).length := by simpa [colMeans] using hj
  rw [List.getD_eq_getElem _ _ hlen]
  simp [colMeans]

theorem fillMissingMean_headers (t : Table) : (fillMissingMean t).headers = t.headers := rfl

theorem fillMissingMean_nrows (t : Table) : (fillMissingMean t).nrows = t.nrows := by
  simp [fillMissingMean, Table.nrows]

theorem fillMissingMean_cellAt (t : Table) (ht : t.Rect) (i j : Nat)
    (hi : i < t.nrows) (hj : j < t.ncols) :
    (fillMissingMean t).cellAt i j =
      fillCell (t.dtypeAt j) (meanAt t j) (t.cellAt i j) := by
  have hi' : i < (t.rows.map (fillRow (t.headers.map Header.dtype) (colMeans t))).length := by
    simpa [Table.nrows] using hi
  have hrowlen : (t.rows.getD i []).length = t.ncols := by
    have : t.rows.getD i [] ∈ t.rows := by
      rw [List.getD_eq_getElem _ _ (by simpa [Table.nrows] using hi)]
      exact List.getElem_mem _
    exact ht _ this
  unfold fillMissingMean Table.cellAt
  rw [List.getD_eq_getElem _ _ hi', List.getElem_map,
    ← List.getD_eq_getElem t.rows [] (by simpa [Table.nrows] using hi)]
  rw [fillRow_getD_of_lt _ _ _ j (by simpa [Table.ncols] using hj)
    (by simpa [colMeans] using hj) (by rw [hrowlen]; exact hj)]
  rw [colMeans_getD t j hj]
  rfl

/-- Claim C10 — frame effects: Remove Duplicates keeps the header list (so
column set and order) and only ever keeps original rows, in their original
order, values untouched; Fill Missing keeps the header list, the row count
and order, and every already-present cell. -/
theorem cleaning_frame_effects (t : Table) :
    (dropDuplicates t).headers = t.headers ∧
    (dropDuplicates t).rows.Sublist t.rows ∧
    (fillMissingMean t).headers = t.headers ∧
    (fillMissingMean t).nrows = t.nrows ∧
    (∀ i j, t.cellAt i j ≠ Val.missing → (fillMissingMean t).cellAt i j = t.cellAt i j) := by
  refine ⟨rfl, dedupRows_sublist t.rows [], rfl, fillMissingMean_nrows t, ?_⟩
  intro i j hne
  by_cases hi : i < t.rows.length
  · have hi' : i < (t.rows.map (fillRow (t.headers.map Header.dtype) (colMeans t))).length := by
      simpa using hi
    unfold fillMissingMean Table.cellAt
    rw [List.getD_eq_getElem _ _ hi', List.getElem_map, ← List.getD_eq_getElem t.rows [] hi]
    exact fillRow_getD_of_ne_missing _ _ _ j (by simpa [Table.cellAt] using hne)
  · exfalso
    apply hne
    have hrow : t.rows.getD i [] = ([] : List Val) :=
      List.getD_eq_default _ _ (le_of_not_lt hi)
    unfold Table.cellAt
    rw [hrow]
    rfl

theorem fillMissingMean_colCells (t : Table) (j : Nat) :
    (fillMissingMean t).colCells j =
      t.rows.map
        (fun r => (fillRow (t.headers.map Header.dtype) (colMeans t) r).getD j Val.missing) := by
  simp [fillMissingMean, Table.colCells, List.map_map]

/-- Claim C2 — after Fill Missing (Mean), every numeric column with at
least one present value has no missing entries, each filled cell holds the
column's pre-fill arithmetic mean (sum of present values over their
count), and non-numeric columns are untouched. -/
theorem fillMissingMean_spec (t : Table) (ht : t.Rect) :
    (∀ j, j < t.ncols → t.dtypeAt j = Dtype.numeric → presentVals t j ≠ [] →
      missingCount (fillMissingMean t) j = 0 ∧
      ∀ i, i < t.nrows → t.cellAt i j = Val.missing →
        (fillMissingMean t).cellAt i j =
          Val.num ((presentVals t j).sum / ((presentVals t j).length : ℚ))) ∧
    (∀ j, t.dtypeAt j ≠ Dtype.numeric →
      (fillMissingMean t).colCells j = t.colCells j) := by
  constructor
  · intro j hj hdt hps
    have hmean : meanAt t j =
        some ((presentVals t j).sum / ((presentVals t j).length : ℚ)) := by
      simp only [meanAt]
      rw [if_neg (by simpa [List.isEmpty_iff] using hps)]
    constructor
    · rw [missingCount, List.count_eq_zero]
      intro hmem
      rw [fillMissingMean_colCells] at hmem
      obtain ⟨r, hr, hfill⟩ := List.mem_map.mp hmem
      have hrlen : r.length = t.headers.length := ht r hr
      rw [fillRow_getD_of_lt _ _ _ j (by simpa [Table.ncols] using hj)
        (by simpa [colMeans] using hj)
        (by rw [hrlen]; simpa [Table.ncols] using hj)] at hfill
      rw [colMeans_getD t j hj, hmean] at hfill
      have hdt' : (t.headers.map Header.dtype).getD j Dtype.object = Dtype.numeric := hdt
      rw [hdt'] at hfill
      by_cases hc : r.getD j Val.missing = Val.missing
      · rw [hc] at hfill
        exact Val.noConfusion hfill
      · rw [fillCell_of_ne_missing _ _ _ hc] at hfill
        exact hc hfill
    · intro i hi hcell
      rw [fillMissingMean_cellAt t ht i j hi hj, hcell, hdt, hmean]
      rfl
  · intro j hdt
    rw [fillMissingMean_colCells, Table.colCells]
    exact List.map_congr_left fun r _ => fillRow_getD_of_not_numeric _ _ _ j hdt

/-- Witness for claim C2 at a concrete table: one numeric column with a
missing entry and one textual column. -/
theorem fillMissingMean_spec_witness :
    Table.Rect sampleTable ∧
    ((∀ j, j < sampleTable.ncols → sampleTable.dtypeAt j = Dtype.numeric →
        presentVals sampleTable j ≠ [] →
        missingCount (fillMissingMean sampleTable) j = 0 ∧
        ∀ i, i < sampleTable.nrows → sampleTable.cellAt i j = Val.missing →
          (fillMissingMean sampleTable).cellAt i j =
            Val.num ((presentVals sampleTable j).sum /
              ((presentVals sampleTable j).length : ℚ))) ∧
      (∀ j, sampleTable.dtypeAt j ≠ Dtype.numeric →
        (fillMissingMean sampleTable).colCells j = sampleTable.colCells j)) :=
  ⟨by decide, fillMissingMean_spec sampleTable (by decide)⟩

/-- Claim C9 — a numeric column that is entirely missing is left exactly as
it was (its mean is undefined, `fillna` skips it), the operation still
succeeds (shape preserved), and every in-range cell of the table is
processed by the usual per-cell rule. -/
theorem fillMissingMean_allMissing (t : Table) (ht : t.Rect) (j : Nat)
    (hj : j < t.ncols) (_hdt : t.dtypeAt j = Dtype.numeric)
    (hall : ∀ c ∈ t.colCells j, c = Val.missing) :
    (fillMissingMean t).colCells j = t.colCells j ∧
    (fillMissingMean t).headers = t.headers ∧
    (fillMissingMean t).nrows = t.nrows ∧
    (∀ k i, k < t.ncols → i < t.nrows →
      (fillMissingMean t).cellAt i k =
        fillCell (t.dtypeAt k) (meanAt t k) (t.cellAt i k)) := by
  have hps : presentVals t j = [] := by
    rw [presentVals, List.filterMap_eq_nil_iff]
    intro c hc
    rw [hall c hc]
    rfl
  have hmean : meanAt t j = none := by simp [meanAt, hps]
  refine ⟨?_, rfl, fillMissingMean_nrows t, ?_⟩
  · rw [fillMissingMean_colCells, Table.colCells]
    refine List.map_congr_left fun r _ => ?_
    exact fillRow_getD_of_mean_none _ _ _ j (by rw [colMeans_getD t j hj, hmean])
  · intro k i hk hi
    exact fillMissingMean_cellAt t ht i k hi hk

/-- Witness for claim C9 at a concrete table whose second numeric column is
entirely missing. -/
theorem fillMissingMean_allMissing_witness :
    (Table.Rect allMissingColTable ∧ 1 < allMissingColTable.ncols ∧
      allMissingColTable.dtypeAt 1 = Dtype.numeric ∧
      (∀ c ∈ allMissingColTable.colCells 1, c = Val.missing)) ∧
    ((fillMissingMean allMissingColTable).colCells 1 = allMissingColTable.colCells 1 ∧
      (fillMissingMean allMissingColTable).headers = allMissingColTable.headers ∧
      (fillMissingMean allMissingColTable).nrows = allMissingColTable.nrows ∧
      (∀ k i, k < allMissingColTable.ncols → i < allMissingColTable.nrows →
        (fillMissingMean allMissingColTable).cellAt i k =
          fillCell (allMissingColTable.dtypeAt k) (meanAt allMissingColTable k)
            (allMissingColTable.cellAt i k))) :=
  ⟨⟨by decide, by decide, by decide, by decide⟩,
    fillMissingMean_allMissing allMissingColTable (by decide) 1 (by decide) (by decide)
      (by decide)⟩

/-! # Lemmas about column projection -/

theorem lookupCell_isSome (hs : List Header) (r : List Val) (n : String)
    (hmem : ∃ h ∈ hs, h.name = n) (hlen : r.length = hs.length) :
    ∃ v, lookupCell hs r n = some v := by
  induction hs generalizing r with
  | nil => simp at hmem
  | cons h hs ih =>
      cases r with
      | nil => simp at hlen
      | cons v vs =>
          by_cases hn : h.name = n
          · exact ⟨v, by simp [lookupCell, hn]⟩
          · obtain ⟨h', hh', hname⟩ := hmem
            rcases List.mem_cons.mp hh' with rfl | hh'
            · exact absurd hname hn
            · simpa [lookupCell, hn] using ih vs ⟨h', hh', hname⟩ (by simpa using hlen)

theorem find?_header (hs : List Header) (n : String) (hmem : ∃ h ∈ hs, h.name = n) :
    ∃ h, hs.find? (fun h => h.name = n) = some h ∧ h.name = n := by
  have hsome : (hs.find? (fun h => h.name = n)).isSome := by
    rw [List.find?_isSome]
    obtain ⟨h, hh, hn⟩ := hmem
    exact ⟨h, hh, by simpa using hn⟩
  obtain ⟨h, hh⟩ := Option.isSome_iff_exists.mp hsome
  exact ⟨h, hh, by simpa using List.find?_some hh⟩

theorem selectColumns_names (hs : List Header) (sel : List String)
    (hsel : ∀ n ∈ sel, ∃ h ∈ hs, h.name = n) :
    (sel.filterMap (fun n => hs.find? (fun h => h.name = n))).map Header.name = sel := by
  induction sel with
  | nil => rfl
  | cons m rest ih =>
      obtain ⟨h, hfind, hname⟩ := find?_header hs m (hsel m (List.mem_cons_self m rest))
      simp only [List.filterMap_cons, hfind, List.map_cons, hname]
      rw [ih (fun n hn => hsel n (List.mem_cons_of_mem m hn))]

theorem lookupCell_selected (hs : List Header) (r : List Val) (sel : List String)
    (hsel : ∀ n ∈ sel, ∃ h ∈ hs, h.name = n) (hlen : r.length = hs.length) :
    ∀ n0 ∈ sel,
      lookupCell (sel.filterMap (fun n => hs.find? (fun h => h.name = n)))
        (sel.filterMap (fun n => lookupCell hs r n)) n0 = lookupCell hs r n0 := by
  induction sel with
  | nil => intro n0 hn0; simp at hn0
  | cons m rest ih =>
      intro n0 hn0
      obtain ⟨h, hfind, hname⟩ := find?_header hs m (hsel m (List.mem_cons_self m rest))
      obtain ⟨v, hv⟩ := lookupCell_isSome hs r m (hsel m (List.mem_cons_self m rest)) hlen
      simp only [List.filterMap_cons, hfind, hv]
      by_cases hm : m = n0
      · subst hm
        simp [lookupCell, hname, hv]
      · have hn0' : n0 ∈ rest := by
          rcases List.mem_cons.mp hn0 with rfl | hr
          · exact absurd rfl hm
          · exact hr
        have : h.name ≠ n0 := by rw [hname]; exact hm
        simpa [lookupCell, this] using
          ih (fun n hn => hsel n (List.mem_cons_of_mem m hn)) n0 hn0'

/-- Claim C6 — column projection is a pure filter: for any selection of the
table's column names (empty included), the result has exactly the selected
columns, in the selected order, with the row count preserved and every
selected column's per-row values unchanged. -/
theorem selectColumns_spec (t : Table) (ht : t.Rect) (sel : List String)
    (hsel : ∀ n ∈ sel, n ∈ t.names) :
    (selectColumns t sel).names = sel ∧
    (selectColumns t sel).nrows = t.nrows ∧
    (∀ n ∈ sel, columnByName (selectColumns t sel) n = columnByName t n) := by
  have hsel' : ∀ n ∈ sel, ∃ h ∈ t.headers, h.name = n := by
    intro n hn
    obtain ⟨h, hh, hname⟩ := List.mem_map.mp (hsel n hn)
    exact ⟨h, hh, hname⟩
  refine ⟨selectColumns_names t.headers sel hsel', ?_, ?_⟩
  · simp [selectColumns, Table.nrows]
  · intro n hn
    unfold columnByName selectColumns
    rw [List.map_map]
    refine List.map_congr_left fun r hr => ?_
    exact lookupCell_selected t.headers r sel hsel' (ht r hr) n hn

/-- Witness for claim C6: projecting the sample table onto its columns in
reversed order. -/
theorem selectColumns_spec_witness :
    (Table.Rect sampleTable ∧ ∀ n ∈ ["b", "a"], n ∈ sampleTable.names) ∧
    ((selectColumns sampleTable ["b", "a"]).names = ["b", "a"] ∧
      (selectColumns sampleTable ["b", "a"]).nrows = sampleTable.nrows ∧
      (∀ n ∈ ["b", "a"],
        columnByName (selectColumns sampleTable ["b", "a"]) n = columnByName sampleTable n)) :=
  ⟨⟨by decide, by decide⟩, selectColumns_spec sampleTable (by decide) ["b", "a"] (by decide)⟩

/-! # Session persistence of the Working Table (claim C4) -/

/-- Claim C4 — the working table does NOT persist across interactions.  The
script keeps nothing in `st.session_state`: every rerun re-parses the
uploaded file (line 57) and `st.button` is true only during the rerun its
click caused.  Concretely: clicking Remove Duplicates yields a 2-row table
(and reports success), but at the very next interaction — clicking Fill
Missing — the table is rebuilt from the file: it has 3 rows again, its
first and third rows are the duplicate pair, and re-deduplicating it would
again drop a row; the missing value is filled with the mean of the
re-parsed (un-deduplicated) column.  So the effect of Remove Duplicates is
absent from the working table at the later interaction, contradicting the
claimed persistence. -/
theorem workingTable_not_persistent :
    (∃ t1, scriptRun dupFile ["id", "value"] true Event.clickRemoveDuplicates
        = RunOutcome.ok t1
        ∧ t1.nrows = 2 ∧ t1.rows = [[Val.num 5, Val.num 10], [Val.num 2, Val.missing]])
  ∧ (∃ t2, scriptRun dupFile ["id", "value"] true Event.clickFillMissing
        = RunOutcome.ok t2
        ∧ t2.nrows = 3
        ∧ t2.rows.getD 0 [] = t2.rows.getD 2 []
        ∧ t2.cellAt 1 1 = Val.num 10
        ∧ (dropDuplicates t2).nrows = 2) := by
  have hing : ingest dupFile = IngestResult.table dupParsed := by decide
  have hsel : selectColumns dupParsed ["id", "value"] = dupParsed := by decide
  have hm0 : meanAt dupParsed 0 = some 4 := by
    norm_num [meanAt, presentVals, Table.colCells, numOf, dupParsed,
      List.filterMap_cons, List.filterMap_nil]
  have hm1 : meanAt dupParsed 1 = some 10 := by
    norm_num [meanAt, presentVals, Table.colCells, numOf, dupParsed,
      List.filterMap_cons, List.filterMap_nil]
  have hcm : colMeans dupParsed = [meanAt dupParsed 0, meanAt dupParsed 1] := rfl
  have h2 : scriptRun dupFile ["id", "value"] true Event.clickFillMissing
      = RunOutcome.ok (fillMissingMean dupParsed) := by
    simp [scriptRun, hing, hsel]
  simp only [dupParsed] at hm0 hm1 hcm
  constructor
  · exact ⟨dropDuplicates dupParsed, by decide, by decide, by decide⟩
  · refine ⟨fillMissingMean dupParsed, h2, by decide, by decide, ?_, by decide⟩
    simp [fillMissingMean, Table.cellAt, hcm, hm0, hm1, dupParsed, fillRow, fillCell]

/-! # Lemmas for the CSV round trip: numeric literals -/

theorem charDigitVal_digitChar (d : Nat) (hd : d < 10) :
    charDigitVal (digitChar d) = some d := by
  interval_cases d <;> rfl

theorem digitsOfChars_map_digitChar (l : List Nat) (hl : ∀ d ∈ l, d < 10) :
    digitsOfChars (l.map digitChar) = some l := by
  induction l with
  | nil => rfl
  | cons d ds ih =>
      have hd : d < 10 := hl d (List.mem_cons_self d ds)
      have ihds := ih (fun x hx => hl x (List.mem_cons_of_mem d hx))
      simp only [List.map_cons, digitsOfChars, charDigitVal_digitChar d hd, ihds]

theorem natToChars_ne_nil (n : Nat) : natToChars n ≠ [] := by
  unfold natToChars
  by_cases h : n = 0
  · simp [h]
  · rw [if_neg h]
    simp [Nat.digits_ne_nil_iff_ne_zero.mpr h]

theorem natToChars_digits (n : Nat) :
    ∀ c ∈ natToChars n, (charDigitVal c).isSome := by
  intro c hc
  unfold natToChars at hc
  by_cases h : n = 0
  · rw [if_pos h] at hc
    simp at hc
    subst hc
    rfl
  · rw [if_neg h] at hc
    rw [List.mem_reverse, List.mem_map] at hc
    obtain ⟨d, hd, rfl⟩ := hc
    have : d < 10 := Nat.digits_lt_base (by norm_num) hd
    rw [charDigitVal_digitChar d this]
    rfl

theorem not_mem_natToChars (c : Char) (hch : charDigitVal c = none) (n : Nat) :
    c ∉ natToChars n := by
  intro hc
  have := natToChars_digits n c hc
  rw [hch] at this
  exact Bool.noConfusion this

theorem charsToNat_natToChars (n : Nat) : charsToNat (natToChars n) = some n := by
  by_cases h : n = 0
  · subst h
    rfl
  · unfold natToChars
    rw [if_neg h]
    have hrev : ((Nat.digits 10 n).map digitChar).reverse
        = (Nat.digits 10 n).reverse.map digitChar := by
      rw [List.map_reverse]
    rw [hrev]
    have hdig : digitsOfChars ((Nat.digits 10 n).reverse.map digitChar)
        = some (Nat.digits 10 n).reverse :=
      digitsOfChars_map_digitChar _
        (fun d hd => Nat.digits_lt_base (by norm_num) (List.mem_reverse.mp hd))
    have hne : (Nat.digits 10 n).reverse ≠ [] := by
      simp [Nat.digits_ne_nil_iff_ne_zero.mpr h]
    unfold charsToNat
    rw [hdig]
    cases hrl : (Nat.digits 10 n).reverse with
    | nil => exact absurd hrl hne
    | cons x xs =>
        have hx : xs.reverse ++ [x] = Nat.digits 10 n := by
          rw [← List.reverse_cons, ← hrl, List.reverse_reverse]
        simp [hx, Nat.ofDigits_digits]

theorem intToChars_ne_nil (n : Int) : intToChars n ≠ [] := by
  unfold intToChars
  by_cases h : n < 0
  · simp [h]
  · rw [if_neg h]
    exact natToChars_ne_nil _

theorem intToChars_chars (n : Int) :
    ∀ c ∈ intToChars n, (charDigitVal c).isSome ∨ c = '-' := by
  intro c hc
  unfold intToChars at hc
  by_cases h : n < 0
  · rw [if_pos h] at hc
    rcases List.mem_cons.mp hc with rfl | hc
    · exact Or.inr rfl
    · exact Or.inl (natToChars_digits _ c hc)
  · rw [if_neg h] at hc
    exact Or.inl (natToChars_digits _ c hc)

theorem not_mem_intToChars (c : Char) (hch : charDigitVal c = none) (hdash : c ≠ '-')
    (n : Int) : c ∉ intToChars n := by
  intro hc
  rcases intToChars_chars n c hc with hs | hd
  · rw [hch] at hs
    exact Bool.noConfusion hs
  · exact hdash hd

theorem charsToInt_intToChars (n : Int) : charsToInt (intToChars n) = some n := by
  by_cases h : n < 0
  · unfold intToChars
    rw [if_pos h]
    have hstep : charsToInt ('-' :: natToChars n.natAbs) = some (-(n.natAbs : Int)) := by
      simp [charsToInt, charsToNat_natToChars]
    rw [hstep]
    simp only [Option.some.injEq]
    omega
  · unfold intToChars
    rw [if_neg h]
    cases hnn : natToChars n.toNat with
    | nil => exact absurd hnn (natToChars_ne_nil _)
    | cons c rest =>
        have hc : (charDigitVal c).isSome := by
          refine natToChars_digits n.toNat c ?_
          rw [hnn]
          exact List.mem_cons_self c rest
        have hcd : c ≠ '-' := by
          intro hcc
          subst hcc
          exact Bool.noConfusion hc
        have hstep : charsToInt (c :: rest) = some ((n.toNat : Int)) := by
          simp [charsToInt, if_neg hcd, ← hnn, charsToNat_natToChars]
        rw [hstep]
        simp only [Option.some.injEq]
        omega

/-! # Lemmas for the CSV round trip: splitting and joining -/

theorem splitOnChar_ne_nil (sep : Char) (cs : List Char) : splitOnChar sep cs ≠ [] := by
  cases cs with
  | nil => simp [splitOnChar]
  | cons c cs =>
      by_cases h : c = sep
      · simp [splitOnChar, h]
      · simp only [splitOnChar, if_neg h]
        cases splitOnChar sep cs <;> simp

theorem splitOnChar_of_not_mem (sep : Char) (cs : List Char) (h : sep ∉ cs) :
    splitOnChar sep cs = [cs] := by
  induction cs with
  | nil => rfl
  | cons c cs ih =>
      have hc : ¬c = sep := fun hcc => h (hcc ▸ List.mem_cons_self c cs)
      have ihcs := ih (fun hm => h (List.mem_cons_of_mem c hm))
      simp only [splitOnChar, if_neg hc, ihcs]

theorem splitOnChar_append (sep : Char) (xs ys : List Char) (h : sep ∉ xs) :
    splitOnChar sep (xs ++ sep :: ys) = xs :: splitOnChar sep ys := by
  induction xs with
  | nil => simp [splitOnChar]
  | cons x xs ih =>
      have hx : ¬x = sep := fun hxx => h (hxx ▸ List.mem_cons_self x xs)
      have ihxs := ih (fun hm => h (List.mem_cons_of_mem x hm))
      simp only [List.cons_append, splitOnChar, if_neg hx, List.append_eq, ihxs]

theorem joinSep_split (sep : Char) (ps : List (List Char)) (hne : ps ≠ [])
    (hmem : ∀ p ∈ ps, sep ∉ p) : splitOnChar sep (joinSep sep ps) = ps := by
  induction ps with
  | nil => exact absurd rfl hne
  | cons p ps ih =>
      cases ps with
      | nil => exact splitOnChar_of_not_mem sep p (hmem p (List.mem_cons_self p []))
      | cons q rest =>
          have h1 : sep ∉ p := hmem p (List.mem_cons_self p _)
          have h2 := ih (by simp) (fun x hx => hmem x (List.mem_cons_of_mem p hx))
          simp only [joinSep, splitOnChar_append sep p _ h1, h2]

theorem joinSep_not_mem (sep sep2 : Char) (hne : sep2 ≠ sep) (ps : List (List Char))
    (h : ∀ p ∈ ps, sep2 ∉ p) : sep2 ∉ joinSep sep ps := by
  induction ps with
  | nil => simp [joinSep]
  | cons p ps ih =>
      cases ps with
      | nil => exact h p (List.mem_cons_self p [])
      | cons q rest =>
          simp only [joinSep, List.mem_append, List.mem_cons]
          push_neg
          exact ⟨h p (List.mem_cons_self p _), hne,
            fun hm => (ih (fun x hx => h x (List.mem_cons_of_mem p hx))) (by simpa [joinSep] using hm)⟩

/-! # Lemmas for the CSV round trip: rational literals -/

theorem charsToRat_ratToChars (q : ℚ) : charsToRat (ratToChars q) = some q := by
  by_cases hden : q.den = 1
  · unfold ratToChars
    rw [if_pos hden]
    have hsplit : splitOnChar '/' (intToChars q.num) = [intToChars q.num] :=
      splitOnChar_of_not_mem _ _ (not_mem_intToChars '/' (by decide) (by decide) _)
    simp only [charsToRat, hsplit, charsToInt_intToChars, Option.some.injEq]
    have hdiv := Rat.num_div_den q
    rw [hden] at hdiv
    simpa using hdiv
  · unfold ratToChars
    rw [if_neg hden]
    have h1 : '/' ∉ intToChars q.num := not_mem_intToChars '/' (by decide) (by decide) _
    have h2 : '/' ∉ natToChars q.den := not_mem_natToChars '/' (by decide) _
    have hsplit : splitOnChar '/' (intToChars q.num ++ '/' :: natToChars q.den)
        = [intToChars q.num, natToChars q.den] := by
      rw [splitOnChar_append '/' _ _ h1, splitOnChar_of_not_mem _ _ h2]
    simp only [charsToRat, hsplit, charsToInt_intToChars, charsToNat_natToChars]
    rw [if_neg q.den_nz]
    rw [Rat.num_div_den]

theorem ratToChars_ne_nil (q : ℚ) : ratToChars q ≠ [] := by
  unfold ratToChars
  by_cases hden : q.den = 1
  · rw [if_pos hden]
    exact intToChars_ne_nil _
  · rw [if_neg hden]
    intro h
    exact intToChars_ne_nil q.num (List.append_eq_nil.mp h).1

theorem ratToChars_chars (q : ℚ) :
    ∀ c ∈ ratToChars q, (charDigitVal c).isSome ∨ c = '-' ∨ c = '/' := by
  intro c hc
  unfold ratToChars at hc
  by_cases hden : q.den = 1
  · rw [if_pos hden] at hc
    rcases intToChars_chars q.num c hc with hs | hd
    · exact Or.inl hs
    · exact Or.inr (Or.inl hd)
  · rw [if_neg hden] at hc
    rcases List.mem_append.mp hc with hm | hm
    · rcases intToChars_chars q.num c hm with hs | hd
      · exact Or.inl hs
      · exact Or.inr (Or.inl hd)
    · rcases List.mem_cons.mp hm with rfl | hm
      · exact Or.inr (Or.inr rfl)
      · exact Or.inl (natToChars_digits _ c hm)

theorem token_ne_ratToChars (q : ℚ) (cs : List Char)
    (h : ∃ c ∈ cs, charDigitVal c = none ∧ c ≠ '-' ∧ c ≠ '/') :
    cs ≠ ratToChars q := by
  obtain ⟨c, hc, hd, h1, h2⟩ := h
  intro he
  rcases ratToChars_chars q c (he ▸ hc) with hs | hh | hh
  · rw [hd] at hs
    exact Bool.noConfusion hs
  · exact h1 hh
  · exact h2 hh

theorem isNAField_ratToChars (q : ℚ) : isNAField (ratToChars q) = false := by
  by_contra hne
  have h' : isNAField (ratToChars q) = true := by
    cases hb : isNAField (ratToChars q)
    · exact absurd hb hne
    · rfl
  rw [isNAField, List.any_eq_true] at h'
  obtain ⟨s, hs, hdec⟩ := h'
  have heq : s.data = ratToChars q := of_decide_eq_true hdec
  have hprop : ∀ s ∈ naTokens,
      s.data = [] ∨ ∃ c ∈ s.data, charDigitVal c = none ∧ c ≠ '-' ∧ c ≠ '/' := by
    decide
  rcases hprop s hs with hnil | hbad
  · rw [hnil] at heq
    exact ratToChars_ne_nil q heq.symm
  · exact token_ne_ratToChars q s.data hbad heq

/-! # Lemmas for the CSV round trip: cells and fields -/

theorem comma_not_mem_serializeCell (v : Val) (hsafe : StrSafe v) :
    ',' ∉ serializeCell v := by
  cases v with
  | num q =>
      intro hm
      rcases ratToChars_chars q ',' hm with hs | h | h
      · exact absurd hs (by decide)
      · exact absurd h (by decide)
      · exact absurd h (by decide)
  | str s => exact (hsafe s rfl).2.1
  | missing => simp [serializeCell]

theorem newline_not_mem_serializeCell (v : Val) (hsafe : StrSafe v) :
    '\n' ∉ serializeCell v := by
  cases v with
  | num q =>
      intro hm
      rcases ratToChars_chars q '\n' hm with hs | h | h
      · exact absurd hs (by decide)
      · exact absurd h (by decide)
      · exact absurd h (by decide)
  | str s => exact (hsafe s rfl).2.2
  | missing => simp [serializeCell]

theorem parseField_serialize (b : Bool) (c : Val) (hsafe : StrSafe c)
    (hb : b = true → fieldNumericOrNA (serializeCell c) = true) :
    eqModNumFmt c (parseField b (serializeCell c)) := by
  cases c with
  | missing =>
      refine Or.inl ?_
      simp [serializeCell, parseField, isNAField, naTokens]
  | num q =>
      have hna := isNAField_ratToChars q
      cases b with
      | true =>
          refine Or.inl ?_
          simp [serializeCell, parseField, hna, charsToRat_ratToChars]
      | false =>
          refine Or.inr ?_
          have hv : numValue (parseField false (serializeCell (Val.num q))) = some q := by
            simp [serializeCell, parseField, hna, numValue, charsToRat_ratToChars]
          rw [hv]
          simp [numValue]
  | str s =>
      obtain ⟨sd⟩ := s
      have hna := (hsafe ⟨sd⟩ rfl).1
      simp only [String.data] at hna
      cases b with
      | false =>
          refine Or.inl ?_
          simp [serializeCell, parseField, hna]
      | true =>
          have hnum : fieldNumericOrNA sd = true := by
            simpa [serializeCell] using hb rfl
          have hq : ∃ q, charsToRat sd = some q := by
            rcases Bool.or_eq_true_iff.mp (by simpa [fieldNumericOrNA] using hnum) with h | h
            · rw [hna] at h
              exact Bool.noConfusion h
            · exact Option.isSome_iff_exists.mp (by simpa [fieldIsNumeric] using h)
          obtain ⟨q, hq⟩ := hq
          refine Or.inr ?_
          have h1 : parseField true (serializeCell (Val.str ⟨sd⟩)) = Val.num q := by
            simp [serializeCell, parseField, hna, hq]
          rw [h1]
          simp [numValue, hq]

theorem parseRowFrom_equiv (cells : List Val) (isNum : Nat → Bool) (j : Nat)
    (hsafe : ∀ c ∈ cells, StrSafe c)
    (hnum : ∀ k, isNum (j + k) = true →
      fieldNumericOrNA ((cells.map serializeCell).getD k []) = true) :
    List.Forall₂ eqModNumFmt cells (parseRowFrom isNum j (cells.map serializeCell)) := by
  induction cells generalizing j with
  | nil => exact List.Forall₂.nil
  | cons c cs ih =>
      simp only [List.map_cons, parseRowFrom]
      refine List.Forall₂.cons ?_ ?_
      · refine parseField_serialize (isNum j) c (hsafe c (List.mem_cons_self c cs)) ?_
        intro hbj
        have := hnum 0 (by simpa using hbj)
        simpa using this
      · refine ih (j + 1) (fun x hx => hsafe x (List.mem_cons_of_mem c hx)) ?_
        intro k hk
        have harg : j + (k + 1) = j + 1 + k := by omega
        have := hnum (k + 1) (by rw [harg]; exact hk)
        simpa using this

theorem mkHeadersFrom_names (isNum : Nat → Bool) (fs : List (List Char)) :
    ∀ j, (mkHeadersFrom isNum j fs).map Header.name = fs.map (fun f => String.mk f) := by
  induction fs with
  | nil => intro j; rfl
  | cons f fs ih => intro j; simp [mkHeadersFrom, ih (j + 1)]

theorem forall₂_map_self {α β : Type} (R : α → β → Prop) (g : α → β) (l : List α)
    (h : ∀ x ∈ l, R x (g x)) : List.Forall₂ R l (l.map g) := by
  induction l with
  | nil => exact List.Forall₂.nil
  | cons x xs ih =>
      exact List.Forall₂.cons (h x (List.mem_cons_self x xs))
        (ih (fun y hy => h y (List.mem_cons_of_mem x hy)))

/-! # Lemmas for the CSV round trip: lines -/

theorem recordLine_split (r : List Val) (hr : r ≠ []) (hsafe : ∀ c ∈ r, StrSafe c) :
    splitOnChar ',' (recordLine r) = r.map serializeCell := by
  refine joinSep_split ',' _ (by simpa using hr) ?_
  intro p hp
  obtain ⟨c, hc, rfl⟩ := List.mem_map.mp hp
  exact comma_not_mem_serializeCell c (hsafe c hc)

theorem recordLine_newline (r : List Val) (hsafe : ∀ c ∈ r, StrSafe c) :
    '\n' ∉ recordLine r := by
  refine joinSep_not_mem ',' '\n' (by decide) _ ?_
  intro p hp
  obtain ⟨c, hc, rfl⟩ := List.mem_map.mp hp
  exact newline_not_mem_serializeCell c (hsafe c hc)

theorem recordLine_ne_nil (r : List Val) (hr : r ≠ [])
    (h1 : ∀ c, r = [c] → c ≠ Val.missing) (hsafe : ∀ c ∈ r, StrSafe c) :
    recordLine r ≠ [] := by
  cases r with
  | nil => exact absurd rfl hr
  | cons c cs =>
      cases cs with
      | nil =>
          have hcm : c ≠ Val.missing := h1 c rfl
          have : recordLine [c] = serializeCell c := rfl
          rw [this]
          cases c with
          | num q => exact ratToChars_ne_nil q
          | str s =>
              have hna := (hsafe (Val.str s) (List.mem_cons_self _ _) s rfl).1
              intro hnil
              rw [show serializeCell (Val.str s) = s.data from rfl] at hnil
              rw [hnil] at hna
              exact absurd hna (by decide)
          | missing => exact absurd rfl hcm
      | cons c' cs' => simp [recordLine, joinSep]

theorem headerLine_split (t : Table) (hc : 0 < t.ncols)
    (hnames : ∀ n ∈ t.names, n.data ≠ [] ∧ ',' ∉ n.data ∧ '\n' ∉ n.data) :
    splitOnChar ',' (headerLine t) = t.names.map String.data := by
  refine joinSep_split ',' _ ?_ ?_
  · intro hnil
    have hlen : t.names.length = t.headers.length := by simp [Table.names]
    rw [List.map_eq_nil_iff.mp hnil] at hlen
    simp at hlen
    have hc' : 0 < t.headers.length := hc
    omega
  · intro p hp
    obtain ⟨n, hn, rfl⟩ := List.mem_map.mp hp
    exact (hnames n hn).2.1

theorem headerLine_newline (t : Table)
    (hnames : ∀ n ∈ t.names, n.data ≠ [] ∧ ',' ∉ n.data ∧ '\n' ∉ n.data) :
    '\n' ∉ headerLine t := by
  refine joinSep_not_mem ',' '\n' (by decide) _ ?_
  intro p hp
  obtain ⟨n, hn, rfl⟩ := List.mem_map.mp hp
  exact (hnames n hn).2.2

theorem headerLine_ne_nil (t : Table) (hc : 0 < t.ncols)
    (hnames : ∀ n ∈ t.names, n.data ≠ [] ∧ ',' ∉ n.data ∧ '\n' ∉ n.data) :
    headerLine t ≠ [] := by
  unfold headerLine
  cases hns : t.names with
  | nil =>
      exfalso
      have hlen : t.names.length = t.headers.length := by simp [Table.names]
      rw [hns] at hlen
      simp at hlen
      have hc' : 0 < t.headers.length := hc
      omega
  | cons n rest =>
      cases rest with
      | nil =>
          simp only [List.map_cons, List.map_nil, joinSep]
          exact (hnames n (by rw [hns]; exact List.mem_cons_self _ _)).1
      | cons n' rest' => simp [joinSep]

/-! # The CSV round trip (claim C5) -/

/-- Claim C5, amended — with at least one column, CSV-safe column names and
string cells (no separators, not NA sentinels), and no row that serialises
to a blank line (automatic with two or more columns; with a single column
no cell may be missing, since `read_csv` skips blank lines), re-parsing the
exported CSV gives back the same column names and, cell for cell, the same
values modulo numeric formatting. -/
theorem toCsv_roundTrip (t : Table) (ht : t.Rect) (hc : 0 < t.ncols)
    (hnames : ∀ n ∈ t.names, n.data ≠ [] ∧ ',' ∉ n.data ∧ '\n' ∉ n.data)
    (hcells : ∀ r ∈ t.rows, ∀ c ∈ r, StrSafe c)
    (hnb : 2 ≤ t.ncols ∨ ∀ r ∈ t.rows, ∀ c ∈ r, c ≠ Val.missing) :
    ∃ t', parseCsv (toCsv t) = some t' ∧
      t'.names = t.names ∧
      List.Forall₂ (List.Forall₂ eqModNumFmt) t.rows t'.rows := by
  have hc' : 0 < t.headers.length := hc
  have hrne : ∀ r ∈ t.rows, r ≠ [] := by
    intro r hr hrnil
    have hlen := ht r hr
    rw [hrnil] at hlen
    simp at hlen
    omega
  have hone : ∀ r ∈ t.rows, ∀ c, r = [c] → c ≠ Val.missing := by
    intro r hr c hrc
    rcases hnb with h2 | hall
    · exfalso
      have hlen := ht r hr
      rw [hrc] at hlen
      simp at hlen
      have h2' : 2 ≤ t.headers.length := h2
      omega
    · exact hall r hr c (by rw [hrc]; exact List.mem_cons_self c [])
  have hsplit : splitOnChar '\n' (toCsv t) = headerLine t :: t.rows.map recordLine := by
    refine joinSep_split '\n' _ (by simp) ?_
    intro p hp
    rcases List.mem_cons.mp hp with rfl | hp
    · exact headerLine_newline t hnames
    · obtain ⟨r, hr, rfl⟩ := List.mem_map.mp hp
      exact recordLine_newline r (hcells r hr)
  have hfilter : (headerLine t :: t.rows.map recordLine).filter (fun l => l ≠ []) =
      headerLine t :: t.rows.map recordLine := by
    rw [List.filter_eq_self]
    intro l hl
    rcases List.mem_cons.mp hl with rfl | hl
    · simpa using headerLine_ne_nil t hc hnames
    · obtain ⟨r, hr, rfl⟩ := List.mem_map.mp hl
      simpa using recordLine_ne_nil r (hrne r hr) (hone r hr) (hcells r hr)
  have hscrut : (splitOnChar '\n' (toCsv t)).filter (fun l => l ≠ []) =
      headerLine t :: t.rows.map recordLine := by
    rw [hsplit]
    exact hfilter
  have hrows' : (t.rows.map recordLine).map (splitOnChar ',') =
      t.rows.map (fun r => r.map serializeCell) := by
    rw [List.map_map]
    refine List.map_congr_left fun r hr => ?_
    exact recordLine_split r (hrne r hr) (hcells r hr)
  have hhead' := headerLine_split t hc hnames
  have hp : parseCsv (toCsv t) = some
      { headers := mkHeadersFrom
          (fun j => (t.rows.map (fun r => r.map serializeCell)).all
            (fun rr => fieldNumericOrNA (rr.getD j []))) 0 (t.names.map String.data),
        rows := (t.rows.map (fun r => r.map serializeCell)).map
          (parseRowFrom
            (fun j => (t.rows.map (fun r => r.map serializeCell)).all
              (fun rr => fieldNumericOrNA (rr.getD j []))) 0) } := by
    simp only [parseCsv, hscrut, hrows', hhead']
  refine ⟨_, hp, ?_, ?_⟩
  · show Table.names _ = t.names
    unfold Table.names
    rw [mkHeadersFrom_names, List.map_map]
    refine Eq.trans ?_ (List.map_id t.names)
    exact List.map_congr_left fun n _ => by cases n; rfl
  · show List.Forall₂ _ t.rows _
    rw [List.map_map]
    refine forall₂_map_self _ _ _ ?_
    intro r hr
    refine parseRowFrom_equiv r _ 0 (hcells r hr) ?_
    intro k hk
    rw [Nat.zero_add] at hk
    have hmem : (r.map serializeCell) ∈ t.rows.map (fun r => r.map serializeCell) :=
      List.mem_map.mpr ⟨r, hr, rfl⟩
    exact List.all_eq_true.mp hk _ hmem

/-- Claim C5, counterexample — the claim as stated fails for the
zero-column working table (reachable by selecting zero columns): its
export is blank lines only, and re-parsing raises `EmptyDataError`
(modelled as `none`) instead of returning an equal table. -/
theorem toCsv_zeroColumns_not_roundTrip :
    (selectColumns oneColTable []).ncols = 0 ∧
    (selectColumns oneColTable []).nrows = 1 ∧
    parseCsv (toCsv (selectColumns oneColTable [])) = none := by
  refine ⟨by decide, by decide, by decide⟩

/-- Witness for the amended claim C5 at a concrete mixed table (numeric
column with a missing entry, textual column). -/
theorem toCsv_roundTrip_witness :
    (Table.Rect roundTripSample ∧ 0 < roundTripSample.ncols ∧
      (∀ n ∈ roundTripSample.names, n.data ≠ [] ∧ ',' ∉ n.data ∧ '\n' ∉ n.data) ∧
      (∀ r ∈ roundTripSample.rows, ∀ c ∈ r, StrSafe c) ∧
      (2 ≤ roundTripSample.ncols ∨
        ∀ r ∈ roundTripSample.rows, ∀ c ∈ r, c ≠ Val.missing)) ∧
    (∃ t', parseCsv (toCsv roundTripSample) = some t' ∧
      t'.names = roundTripSample.names ∧
      List.Forall₂ (List.Forall₂ eqModNumFmt) roundTripSample.rows t'.rows) :=
  ⟨⟨by decide, by decide, by decide, by decide, by decide⟩,
    toCsv_roundTrip roundTripSample (by decide) (by decide) (by decide) (by decide)
      (by decide)⟩

end DataSweeper
